import Mathlib

/-!
Shallow embedding of the Proof-of-Capacity consensus engine found in
`src/vendor/substrate/core/consensus/poc/src/lib.rs`.

Pure data is translated directly; the host services the engine consumes
(aux store, header backend, select-chain oracle, sync oracle, proposer,
runtime inherent check, block import) are modelled as record fields holding
the observations the Rust code would make through them, in the order the
code makes them.  Machine integers that matter to the claims (`u64`
timestamps, block numbers) are `Nat`; byte strings are `List UInt8`.
-/

namespace Poc

/-- A 32-byte block hash (`H256` in the source). -/
abbrev H256 : Type := { l : List UInt8 // l.length = 32 }

/-- Build a hash whose 32 bytes all equal `b` (test helper). -/
def h256of (b : UInt8) : H256 := ⟨List.replicate 32 b, by simp⟩

/-- The 4-byte auxiliary-storage tag `b"PoC:"`, named `POC_AUX_PREFIX` in
the source (`lib.rs` line 56). -/
def POC_AUX_TAG : List UInt8 := [0x50, 0x6F, 0x43, 0x3A]

/-- `aux_key` (`lib.rs` lines 59-62): the storage key is the 4-byte tag
followed by the 32 hash bytes. -/
def aux_key (hash : H256) : List UInt8 := POC_AUX_TAG ++ hash.val

/-- `PocAux` (`lib.rs` lines 65-71): per-block difficulty and running total. -/
structure PocAux (D : Type) where
  difficulty : D
  total_difficulty : D
deriving DecidableEq

instance {D : Type} [Inhabited D] : Inhabited (PocAux D) :=
  ⟨{ difficulty := default, total_difficulty := default }⟩

/-- Modelled from the spec: the `TotalDifficulty` trait of `poc_primitives`
is not under `src/`; it supplies the in-place `increment` operation that
accrues a block's difficulty into a running total (spec §3: "an in-place
`increment(D)` operation").  `increment a d` is the value of `a` after
`a.increment(d)`. -/
class TotalDifficulty (D : Type) where
  increment : D → D → D

instance : TotalDifficulty Nat := ⟨Nat.add⟩

/-- A byte codec for the difficulty type: the `Encode`/`Decode` bounds the
source puts on `Algorithm::Difficulty`.  `decode` consumes a prefix of the
input and returns the remaining bytes. -/
structure Codec (D : Type) where
  encode : D → List UInt8
  decode : List UInt8 → Option (D × List UInt8)

/-- A codec round-trips when decoding an encoding (with any trailing bytes)
returns the value and the trailing bytes. -/
def Codec.RoundTrips {D : Type} (c : Codec D) : Prop :=
  ∀ d rest, c.decode (c.encode d ++ rest) = some (d, rest)

/-- Modelled from the spec: the `#[derive(Encode)]` expansion for `PocAux`
(the derive lives in the external codec crate).  Per the spec's canonical
compact binary encoding, a struct encodes as the concatenation of its
fields' encodings in declaration order. -/
def PocAux.encode {D : Type} (c : Codec D) (a : PocAux D) : List UInt8 :=
  c.encode a.difficulty ++ c.encode a.total_difficulty

/-- Modelled from the spec: the `#[derive(Decode)]` expansion for `PocAux`:
decode the `difficulty` field, then the `total_difficulty` field, from the
byte stream. -/
def PocAux.decode {D : Type} (c : Codec D) (bytes : List UInt8) :
    Option (PocAux D × List UInt8) :=
  match c.decode bytes with
  | none => none
  | some (d, rest) =>
    match c.decode rest with
    | none => none
    | some (td, rest2) => some ({ difficulty := d, total_difficulty := td }, rest2)

/-- `PocAux::read` (`lib.rs` lines 77-85).  `get_aux` is the host aux
store's lookup (`client.get_aux(&key)`): an I/O error, or the optional
stored bytes.  Absent key yields the default record; stored bytes that fail
to decode yield an error. -/
def PocAux.read {D : Type} [Inhabited D] (c : Codec D)
    (get_aux : List UInt8 → Except String (Option (List UInt8)))
    (hash : H256) : Except String (PocAux D) :=
  match get_aux (aux_key hash) with
  | .error e => .error e
  | .ok none => .ok { difficulty := default, total_difficulty := default }
  | .ok (some bytes) =>
    match PocAux.decode c bytes with
    | some (a, _) => .ok a
    | none => .error ("PocAux decode failed")

/-- Modelled from the spec: `POC_ENGINE_ID` from `poc_primitives` is not
under `src/`; it is an opaque 4-byte consensus-engine identifier.  Only
equality with other engine ids matters to the engine. -/
def POC_ENGINE_ID : List UInt8 := [0x50, 0x6F, 0x43, 0x5F]

/-- A header digest item (`sr_primitives::generic::DigestItem`); the engine
inspects only the `Seal` variant, all others are carried opaquely. -/
inductive DigestItem where
  | Seal (id : List UInt8) (data : List UInt8)
  | PreRuntime (id : List UInt8) (data : List UInt8)
  | Other (data : List UInt8)
deriving DecidableEq

/-- A block header (`B::Header` with `Hash = H256`): parent hash, number,
two state roots, and the digest log whose terminal item carries the seal. -/
structure Header where
  parent_hash : H256
  number : Nat
  state_root : H256
  extrinsics_root : H256
  digest : List DigestItem
deriving DecidableEq

/-- `BlockId` of `sr_primitives`: a block designated by hash or by number.
The engine only ever constructs the `hash` form. -/
inductive BlockId where
  | hash (h : H256)
  | number (n : Nat)
deriving DecidableEq

/-- The `PocAlgorithm` trait (`lib.rs` lines 89-126): the pluggable oracle.
Each operation is modelled as the function the one implementation in scope
computes; `H256 → …` arguments mirror the Rust signatures.  Nonce data and
seals are opaque byte strings. -/
structure PocAlgorithm (D : Type) where
  difficulty : BlockId → Except String D
  verify : BlockId → H256 → List UInt8 → D → Except String Bool
  mine : BlockId → H256 → D → Nat → Except String (Option (List UInt8))
  poc_mine : BlockId → H256 → D → Except String (Option (List UInt8))
  poc_verify : BlockId → H256 → List UInt8 → D → Except String Bool

/-- The header with its terminal digest item removed: the state of the Rust
header after `header.digest_mut().pop()`. -/
def Header.stripSeal (header : Header) : Header :=
  { header with digest := header.digest.dropLast }

/-- `PocVerifier::check_header` (`lib.rs` lines 148-181).  `hashFn` is the
host's header hash (`header.hash()`).  The Rust code pops the terminal
digest item (modelled by `getLast?` plus `stripSeal`), demands a `Seal`
tagged `POC_ENGINE_ID`, hashes the stripped header to get the `pre_hash`,
asks the algorithm for the parent's difficulty, and runs `poc_verify`.
The interpolated hash / engine id of the Rust `format!` error strings are
elided; the constant parts are kept. -/
def check_header {D : Type} (alg : PocAlgorithm D) (hashFn : Header → H256)
    (header : Header) (parent_block_id : BlockId) :
    Except String (Header × D × DigestItem) :=
  match header.digest.getLast? with
  | some (DigestItem.Seal id sealBytes) =>
    if id = POC_ENGINE_ID then
      let header' := header.stripSeal
      let pre_hash := hashFn header'
      match alg.difficulty parent_block_id with
      | .error e => .error e
      | .ok difficulty =>
        match alg.poc_verify parent_block_id pre_hash sealBytes difficulty with
        | .error e => .error e
        | .ok true => .ok (header', difficulty, DigestItem.Seal id sealBytes)
        | .ok false => .error ("PoC validation error: invalid nonceData")
    else .error ("Header uses the wrong engine")
  | _ => .error ("Header is unsealed")

/-- `MAX_TIMESTAMP_DRIFT_SECS` (`lib.rs` line 192). -/
def MAX_TIMESTAMP_DRIFT_SECS : Nat := 60

/-- Modelled from the spec: one entry of the runtime's inherent-error list,
pre-composed with `TIError::try_from` of `srml_timestamp` (vendored outside
`src/`).  `validAt t` is an entry that parses as `ValidAtTimestamp(t)`;
`other msg` one that parses as `TIError::Other`; `unknown msg` one that does
not parse, with `msg` the string `inherent_data_providers.error_to_string`
renders for it. -/
inductive InherentErrEntry where
  | validAt (t : Nat)
  | other (msg : String)
  | unknown (msg : String)
deriving DecidableEq

/-- The runtime's `CheckInherentsResult`: the `ok()` flag and the error
list that `into_errors()` yields. -/
structure InherentsRes where
  ok : Bool
  errors : List InherentErrEntry
deriving DecidableEq

/-- The `try_for_each` closure over the inherent errors (`lib.rs` lines
205-217): stop at the first failing entry; a `ValidAtTimestamp(t)` entry
fails exactly when `t > now + MAX_TIMESTAMP_DRIFT_SECS`. -/
def checkErrorList : List InherentErrEntry → Nat → Except String Unit
  | [], _ => .ok ()
  | .validAt t :: rest, timestamp_now =>
    if t > timestamp_now + MAX_TIMESTAMP_DRIFT_SECS then
      .error ("Rejecting block too far in future")
    else checkErrorList rest timestamp_now
  | .other e :: _, _ => .error e
  | .unknown e :: _, _ => .error e

/-- `PocVerifier::check_inherents` (`lib.rs` lines 183-221).  `number` is
`block.header().number()`; `runtimeRes` is what the runtime call
`client.runtime_api().check_inherents(..)` would return (its I/O error, or
its result), taken as an argument so the model can state that it is ignored
below the `check_inherents_after` threshold. -/
def check_inherents (check_inherents_after : Nat) (number : Nat)
    (runtimeRes : Except String InherentsRes) (timestamp_now : Nat) :
    Except String Unit :=
  if number < check_inherents_after then .ok ()
  else
    match runtimeRes with
    | .error e => .error e
    | .ok res =>
      if res.ok then .ok ()
      else checkErrorList res.errors timestamp_now

/-- `consensus_common::BlockOrigin` (the variants the engine mentions). -/
inductive BlockOrigin where
  | NetworkInitialSync
  | NetworkBroadcast
  | ConsensusBroadcast
  | Own
  | File
deriving DecidableEq

/-- `consensus_common::ForkChoiceStrategy`; the engine always builds the
`Custom` form, whose `Bool` is the `prefers_new` verdict. -/
inductive ForkChoiceStrategy where
  | LongestChain
  | Custom (prefers_new : Bool)
deriving DecidableEq

/-- `consensus_common::BlockImportParams` as populated by this engine:
extrinsics and justifications are opaque byte strings, auxiliary entries
are `(key, optional value)` pairs. -/
structure BlockImportParams (D : Type) where
  origin : BlockOrigin
  header : Header
  post_digests : List DigestItem
  body : Option (List (List UInt8))
  finalized : Bool
  justification : Option (List UInt8)
  auxiliary : List (List UInt8 × Option (List UInt8))
  fork_choice : ForkChoiceStrategy
deriving DecidableEq

/-- The host observations `PocVerifier::verify` makes, in order:
`get_aux` is the client's aux-store lookup; `backend_best` is
`client.info().best_hash`; `select_chain` is the optional select-chain
oracle's `best_chain()` (absent when the verifier was built without one);
`timestamp_now` is the timestamp drawn from the freshly created inherent
data (its error covers both `create_inherent_data` and
`timestamp_inherent_data` failures); `runtime_check` is what the runtime's
`check_inherents` call returns for the reassembled block. -/
structure VerifyEnv where
  get_aux : List UInt8 → Except String (Option (List UInt8))
  backend_best : H256
  select_chain : Option (Except String Header)
  timestamp_now : Except String Nat
  runtime_check : Header → List (List UInt8) → Except String InherentsRes

/-- The best-hash determination of `PocVerifier::verify` (`lib.rs` lines
241-246): the select-chain oracle's best header's hash when an oracle is
present, else the backend's best hash. -/
def bestHashOf (env : VerifyEnv) (hashFn : Header → H256) : Except String H256 :=
  match env.select_chain with
  | some (.error e) => .error ("Fetch best chain failed via select chain: " ++ e)
  | some (.ok h) => .ok (hashFn h)
  | none => .ok env.backend_best

/-- `PocVerifier::verify` (`lib.rs` lines 230-285).  The block is
reassembled from the checked header and the body only to be handed to the
runtime inherent check, then split again with the body forwarded
unchanged; the model passes the pieces directly.  The `fork_choice`
verdict compares the freshly computed total difficulty against the aux
record of the best hash observed at entry. -/
def verify {D : Type} [Inhabited D] [LinearOrder D] [TotalDifficulty D]
    (alg : PocAlgorithm D) (c : Codec D) (hashFn : Header → H256)
    (check_inherents_after : Nat) (env : VerifyEnv)
    (origin : BlockOrigin) (header : Header)
    (justification : Option (List UInt8)) (body : Option (List (List UInt8))) :
    Except String (BlockImportParams D) :=
  match env.timestamp_now with
  | .error e => .error e
  | .ok timestamp_now =>
    match bestHashOf env hashFn with
    | .error e => .error e
    | .ok best_hash =>
      let hash := hashFn header
      let parent_hash := header.parent_hash
      match PocAux.read c env.get_aux best_hash with
      | .error e => .error e
      | .ok best_aux =>
        match PocAux.read c env.get_aux parent_hash with
        | .error e => .error e
        | .ok aux0 =>
          match check_header alg hashFn header (BlockId.hash parent_hash) with
          | .error e => .error e
          | .ok (checked_header, difficulty, nonceData) =>
            let aux : PocAux D :=
              { difficulty := difficulty,
                total_difficulty := TotalDifficulty.increment aux0.total_difficulty difficulty }
            let inherentsStep : Except String Unit :=
              match body with
              | some inner_body =>
                check_inherents check_inherents_after checked_header.number
                  (env.runtime_check checked_header inner_body) timestamp_now
              | none => .ok ()
            match inherentsStep with
            | .error e => .error e
            | .ok _ =>
              let key := aux_key hash
              .ok {
                origin := origin,
                header := checked_header,
                post_digests := [nonceData],
                body := body,
                finalized := false,
                justification := justification,
                auxiliary := [(key, some (PocAux.encode c aux))],
                fork_choice := ForkChoiceStrategy.Custom
                  (decide (aux.total_difficulty > best_aux.total_difficulty)) }

/-- The host observations one iteration of `mine_loop` makes, in order.
`use_select_chain` records whether the optional select-chain oracle was
supplied; `sc_best_header` / `backend_best` / `backend_header` are the
loop-entry chain-tip reads; `propose` bundles `env.init(&best_header)` and
`proposer.propose(..)` into the proposed `(header, body)` (their two error
paths are merged); `poc_mine_attempt k` is the result of the k-th
`algorithm.poc_mine(BlockId::Hash(best_hash), header.hash(), difficulty)`
call (indexed because successive calls of the effectful trait method may
differ); `best_during_inner k` is `client.info().best_hash` as observed
after the k-th miss; `sc_best_recheck` / `backend_best_recheck` are the
race re-check tip reads; `import_result` is what
`block_import.import_block` returns if reached. -/
structure MinerEnv where
  is_major_syncing : Bool
  use_select_chain : Bool
  sc_best_header : Except String Header
  backend_best : H256
  backend_header : Except String (Option Header)
  get_aux : List UInt8 → Except String (Option (List UInt8))
  propose : Except String (Header × List (List UInt8))
  poc_mine_attempt : Nat → Except String (Option (List UInt8))
  best_during_inner : Nat → H256
  sc_best_recheck : Except String Header
  backend_best_recheck : H256
  import_result : Except String Unit

/-- Outcome of the miner's inner search loop (`lib.rs` lines 460-483). -/
inductive InnerOutcome where
  | errorE (e : String)
  | found (nonceData : List UInt8)
  | moved
  | fuelOut
deriving DecidableEq

/-- The inner search loop: call `poc_mine`; a hit breaks out with the
nonce; on a miss, abandon the candidate when the backend's best hash has
moved away from `best_hash`, else retry.  `fuel` bounds the unrolling of
the (unboundedly looping) Rust `loop`, `k` counts the attempts made. -/
def mineInner (env : MinerEnv) (best_hash : H256) : Nat → Nat → InnerOutcome
  | 0, _ => .fuelOut
  | fuel + 1, k =>
    match env.poc_mine_attempt k with
    | .error e => .errorE e
    | .ok (some nonceData) => .found nonceData
    | .ok none =>
      if best_hash ≠ env.best_during_inner k then .moved
      else mineInner env best_hash fuel (k + 1)

/-- Outcome of one iteration of the miner's outer loop.  `sleepSync` is the
sync-gate path (sleep 1 s, retry); `restartInner` is `continue 'outer`
because the tip moved during the search; `droppedRace` is `continue
'outer` from the race re-check (the proposal is dropped, `import_block` is
never reached); `imported params` records that `import_block` was called
with `params` and succeeded; `error` is any `Err` propagated out of the
iteration; `outOfFuel` is an artifact of bounding the inner search. -/
inductive MineOutcome (D : Type) where
  | sleepSync
  | restartInner
  | droppedRace
  | imported (params : BlockImportParams D)
  | error (e : String)
  | outOfFuel
deriving DecidableEq

/-- The loop-entry chain-tip read of `mine_loop` (`lib.rs` lines 423-437):
best header via the select-chain oracle (hash is the header's hash), else
the backend's best hash paired with its looked-up header. -/
def minerBestPair (env : MinerEnv) (hashFn : Header → H256) :
    Except String (H256 × Header) :=
  if env.use_select_chain then
    match env.sc_best_header with
    | .error e => .error ("Fetching best header failed using select chain: " ++ e)
    | .ok h => .ok (hashFn h, h)
  else
    match env.backend_header with
    | .error e => .error ("Fetching best header failed: " ++ e)
    | .ok none => .error ("Best header does not exist")
    | .ok (some h) => .ok (env.backend_best, h)

/-- The race re-check chain-tip read of `mine_loop` (`lib.rs` lines
496-501). -/
def minerBestRecheck (env : MinerEnv) (hashFn : Header → H256) :
    Except String H256 :=
  if env.use_select_chain then
    match env.sc_best_recheck with
    | .error e => .error ("Fetch best hash failed via select chain: " ++ e)
    | .ok h => .ok (hashFn h)
  else .ok env.backend_best_recheck

/-- One iteration of `mine_loop` (`lib.rs` lines 416-522).  After the sync
gate, read the tip and its aux record, propose a candidate, compute the
difficulty, search for a nonce, update the aux record, hash the sealed
header for the aux key, re-read the tip, and drop the proposal when the
re-read best total difficulty strictly exceeds the candidate's; otherwise
submit import params whose fork choice is `Custom(true)`.  The optional
pre-runtime digest only feeds the proposer and is absorbed into
`env.propose`. -/
def mineLoopIter {D : Type} [Inhabited D] [LinearOrder D] [TotalDifficulty D]
    (alg : PocAlgorithm D) (c : Codec D) (hashFn : Header → H256)
    (env : MinerEnv) (fuel : Nat) : MineOutcome D :=
  if env.is_major_syncing then .sleepSync
  else
    match minerBestPair env hashFn with
    | .error e => .error e
    | .ok (best_hash, _best_header) =>
      match PocAux.read c env.get_aux best_hash with
      | .error e => .error e
      | .ok aux0 =>
        match env.propose with
        | .error e => .error e
        | .ok (header, body) =>
          match alg.difficulty (BlockId.hash best_hash) with
          | .error e => .error e
          | .ok difficulty =>
            match mineInner env best_hash fuel 0 with
            | .errorE e => .error e
            | .fuelOut => .outOfFuel
            | .moved => .restartInner
            | .found nonceData =>
              let aux : PocAux D :=
                { difficulty := difficulty,
                  total_difficulty :=
                    TotalDifficulty.increment aux0.total_difficulty difficulty }
              let hash := hashFn
                { header with
                  digest := header.digest ++ [DigestItem.Seal POC_ENGINE_ID nonceData] }
              let key := aux_key hash
              match minerBestRecheck env hashFn with
              | .error e => .error e
              | .ok _best_hash2 =>
                match PocAux.read c env.get_aux _best_hash2 with
                | .error e => .error e
                | .ok best_aux =>
                  if best_aux.total_difficulty > aux.total_difficulty then
                    .droppedRace
                  else
                    let params : BlockImportParams D := {
                      origin := BlockOrigin.Own,
                      header := header,
                      post_digests := [DigestItem.Seal POC_ENGINE_ID nonceData],
                      body := some body,
                      finalized := false,
                      justification := none,
                      auxiliary := [(key, some (PocAux.encode c aux))],
                      fork_choice := ForkChoiceStrategy.Custom true }
                    match env.import_result with
                    | .error e => .error ("Error with block built on: " ++ e)
                    | .ok _ => .imported params

/-- A concrete executable difficulty codec over `Nat` used to instantiate
the generic theorems: one truncated byte per value. -/
def natCodec : Codec Nat where
  encode n := [UInt8.ofNat n]
  decode bytes :=
    match bytes with
    | [] => none
    | b :: rest => some (b.toNat, rest)

/-- A concrete faithful byte codec over `UInt8`: it round-trips. -/
def byteCodec : Codec UInt8 where
  encode b := [b]
  decode bytes :=
    match bytes with
    | [] => none
    | b :: rest => some (b, rest)

/-- A stand-in engine id distinct from `POC_ENGINE_ID` (test helper). -/
def otherEngineId : List UInt8 := [0, 0, 0, 0]

/-- A PoC algorithm over `Nat` difficulty that reports difficulty 1 and
accepts every nonce (test helper). -/
def algPass : PocAlgorithm Nat where
  difficulty := fun _ => .ok 1
  verify := fun _ _ _ _ => .ok true
  mine := fun _ _ _ _ => .ok none
  poc_mine := fun _ _ _ => .ok (some [9])
  poc_verify := fun _ _ _ _ => .ok true

/-- A degenerate header hash (test helper). -/
def hashZero : Header → H256 := fun _ => h256of 0

/-- A header sealed for the PoC engine whose earlier digest item is a
foreign engine's seal (test helper). -/
def hdrA : Header where
  parent_hash := h256of 1
  number := 1
  state_root := h256of 2
  extrinsics_root := h256of 3
  digest := [DigestItem.Seal otherEngineId [1], DigestItem.Seal POC_ENGINE_ID [7]]

/-- `hdrA` with an empty digest (test helper). -/
def hdrNoSeal : Header := { hdrA with digest := [] }

/-- The best-chain header of the miner scenarios (test helper). -/
def hdrBest : Header where
  parent_hash := h256of 9
  number := 10
  state_root := h256of 9
  extrinsics_root := h256of 9
  digest := []

/-- The proposed candidate header of the miner scenarios (test helper). -/
def hdrProp : Header where
  parent_hash := h256of 4
  number := 11
  state_root := h256of 9
  extrinsics_root := h256of 9
  digest := []

/-- Miner scenario: the best-chain aux record at mining start is `(1, 1)`
(key of hash `h256of 4`), and the re-read best (hash `h256of 5`) has total
difficulty 2 — exactly the candidate's new total: a tie. -/
def envTie : MinerEnv where
  is_major_syncing := false
  use_select_chain := false
  sc_best_header := .error ("unused")
  backend_best := h256of 4
  backend_header := .ok (some hdrBest)
  get_aux := fun key =>
    if key = aux_key (h256of 4) then .ok (some [1, 1])
    else if key = aux_key (h256of 5) then .ok (some [0, 2])
    else .ok none
  propose := .ok (hdrProp, [])
  poc_mine_attempt := fun _ => .ok (some [9])
  best_during_inner := fun _ => h256of 4
  sc_best_recheck := .error ("unused")
  backend_best_recheck := h256of 5
  import_result := .ok ()

/-- Miner scenario: while mining, a strictly heavier chain (total 5)
arrived; the import handle is poisoned to show it is never consulted. -/
def envDrop : MinerEnv :=
  { envTie with
    get_aux := fun key =>
      if key = aux_key (h256of 4) then .ok (some [1, 1])
      else if key = aux_key (h256of 5) then .ok (some [0, 5])
      else .ok none,
    import_result := .error ("import must not be reached") }

/-- The import params the tie scenario submits: fork choice `Custom true`
although the candidate's total difficulty (2) only equals the re-read
best total (2). -/
def paramsTie : BlockImportParams Nat where
  origin := BlockOrigin.Own
  header := hdrProp
  post_digests := [DigestItem.Seal POC_ENGINE_ID [9]]
  body := some []
  finalized := false
  justification := none
  auxiliary := [(aux_key (h256of 0), some [1, 2])]
  fork_choice := ForkChoiceStrategy.Custom true

/-- Verifier scenario: best hash `h256of 6` with aux `(2, 5)`, parent
(`h256of 1`, the parent of `hdrA`) with aux `(3, 4)`. -/
def venvA : VerifyEnv where
  get_aux := fun key =>
    if key = aux_key (h256of 6) then .ok (some [2, 5])
    else if key = aux_key (h256of 1) then .ok (some [3, 4])
    else .ok none
  backend_best := h256of 6
  select_chain := none
  timestamp_now := .ok 100
  runtime_check := fun _ _ => .ok { ok := true, errors := [] }

/-- Verifier scenario with the parent missing from the aux store (the
genesis path). -/
def venvG : VerifyEnv :=
  { venvA with
    get_aux := fun key =>
      if key = aux_key (h256of 6) then .ok (some [2, 5]) else .ok none }

/-- The import params `verify` emits in scenario `venvA`: new total 5 ties
the best total 5, so the fork choice is `Custom false`. -/
def paramsA : BlockImportParams Nat where
  origin := BlockOrigin.NetworkBroadcast
  header := hdrA.stripSeal
  post_digests := [DigestItem.Seal POC_ENGINE_ID [7]]
  body := some []
  finalized := false
  justification := none
  auxiliary := [(aux_key (h256of 0), some [1, 5])]
  fork_choice := ForkChoiceStrategy.Custom false

/-- The import params `verify` emits in scenario `venvG`: the absent
parent contributed the zero default, so the new total is 1. -/
def paramsG : BlockImportParams Nat :=
  { paramsA with auxiliary := [(aux_key (h256of 0), some [1, 1])] }

/-- If `checkErrorList` succeeds, the error list held no `Other` entry. -/
theorem checkErrorList_ok_no_other (msg : String) :
    ∀ (errs : List InherentErrEntry) (now : Nat),
      InherentErrEntry.other msg ∈ errs → checkErrorList errs now ≠ .ok ()
  | [], _, hmem => absurd hmem (List.not_mem_nil _)
  | .validAt t :: rest, now, hmem => by
    have hmem' : InherentErrEntry.other msg ∈ rest := by
      rcases List.mem_cons.mp hmem with h | h
      · exact absurd h (by simp)
      · exact h
    by_cases ht : t > now + MAX_TIMESTAMP_DRIFT_SECS
    · simp [checkErrorList, ht]
    · simpa [checkErrorList, ht] using checkErrorList_ok_no_other msg rest now hmem'
  | .other e :: _, now, _ => by simp [checkErrorList]
  | .unknown e :: _, now, _ => by simp [checkErrorList]

/-- C8: for every block hash, the auxiliary storage key is the 4-byte
engine tag followed by the 32 hash bytes, hence exactly 36 bytes long and
beginning with the engine tag. -/
theorem aux_key_length_and_tag (h : H256) :
    (aux_key h).length = 36 ∧ (aux_key h).take 4 = POC_AUX_TAG ∧
      aux_key h = POC_AUX_TAG ++ h.val := by
  refine ⟨?_, ?_, rfl⟩
  · simp [aux_key, POC_AUX_TAG, h.property]
  · simp [aux_key, POC_AUX_TAG, List.take]

/-- C9: for every difficulty codec that round-trips and every aux record,
decoding the record's encoding returns the record with no bytes left. -/
theorem pocAux_codec_roundtrip {D : Type} (c : Codec D) (hc : c.RoundTrips)
    (a : PocAux D) :
    PocAux.decode c (PocAux.encode c a) = some (a, []) := by
  have h1 := hc a.difficulty (c.encode a.total_difficulty)
  have h2 := hc a.total_difficulty []
  rw [List.append_nil] at h2
  simp [PocAux.encode, PocAux.decode, h1, h2]

/-- Witness for C9 at a concrete codec and record. -/
theorem pocAux_codec_roundtrip_witness :
    PocAux.decode byteCodec (PocAux.encode byteCodec ⟨3, 7⟩) = some (⟨3, 7⟩, []) :=
  pocAux_codec_roundtrip byteCodec (fun _ _ => rfl) ⟨3, 7⟩

/-- C6: `PocAux::read` yields the default record when the store holds
nothing under the key, propagates a store read error, and fails (never
defaults) when stored bytes do not decode. -/
theorem pocAux_read_contract {D : Type} [Inhabited D] (c : Codec D)
    (get_aux : List UInt8 → Except String (Option (List UInt8))) (h : H256) :
    (get_aux (aux_key h) = .ok none →
      PocAux.read c get_aux h =
        .ok { difficulty := default, total_difficulty := default }) ∧
    (∀ e, get_aux (aux_key h) = .error e → PocAux.read c get_aux h = .error e) ∧
    (∀ bytes, get_aux (aux_key h) = .ok (some bytes) → PocAux.decode c bytes = none →
      PocAux.read c get_aux h = .error ("PocAux decode failed")) := by
  refine ⟨fun h1 => ?_, fun e h1 => ?_, fun bytes h1 h2 => ?_⟩
  · simp [PocAux.read, h1]
  · simp [PocAux.read, h1]
  · simp [PocAux.read, h1, h2]

/-- Witness for C6: absent key gives the zero default, store error and
undecodable bytes give errors. -/
theorem pocAux_read_contract_witness :
    PocAux.read natCodec (fun _ => .ok none) (h256of 0) =
      .ok { difficulty := 0, total_difficulty := 0 } ∧
    PocAux.read natCodec (fun _ => .error ("io failure")) (h256of 0) =
      .error ("io failure") ∧
    PocAux.read natCodec (fun _ => .ok (some [])) (h256of 0) =
      .error ("PocAux decode failed") :=
  ⟨(pocAux_read_contract natCodec (fun _ => .ok none) (h256of 0)).1 rfl,
   (pocAux_read_contract natCodec (fun _ => .error ("io failure")) (h256of 0)).2.1
     ("io failure") rfl,
   (pocAux_read_contract natCodec (fun _ => .ok (some [])) (h256of 0)).2.2 [] rfl rfl⟩

/-- C5: a block whose number is below `check_inherents_after` passes the
inherent check whatever the runtime would have answered. -/
theorem check_inherents_skip (check_inherents_after number : Nat)
    (runtimeRes : Except String InherentsRes) (timestamp_now : Nat)
    (hn : number < check_inherents_after) :
    check_inherents check_inherents_after number runtimeRes timestamp_now = .ok () := by
  simp [check_inherents, hn]

/-- Witness for C5: height 1 with threshold 5 passes both when the runtime
would report an inherent error and when the runtime call itself would
fail. -/
theorem check_inherents_skip_witness :
    check_inherents 5 1 (.ok { ok := false, errors := [.other ("boom")] }) 0 = .ok () ∧
    check_inherents 5 1 (.error ("runtime unavailable")) 0 = .ok () :=
  ⟨check_inherents_skip 5 1 (.ok { ok := false, errors := [.other ("boom")] }) 0
     (by decide),
   check_inherents_skip 5 1 (.error ("runtime unavailable")) 0 (by decide)⟩

/-- C4: at or above the threshold, a lone `ValidAtTimestamp(t)` inherent
error is tolerated exactly when `t ≤ now + 60`; beyond that the block is
rejected as too far in the future; and any `Other` inherent error entry
makes the check fail. -/
theorem check_inherents_timestamp_drift (check_inherents_after number now t : Nat)
    (hn : ¬ number < check_inherents_after) :
    (check_inherents check_inherents_after number
        (.ok { ok := false, errors := [.validAt t] }) now = .ok () ↔
      t ≤ now + MAX_TIMESTAMP_DRIFT_SECS) ∧
    (now + MAX_TIMESTAMP_DRIFT_SECS < t →
      check_inherents check_inherents_after number
          (.ok { ok := false, errors := [.validAt t] }) now =
        .error ("Rejecting block too far in future")) ∧
    (∀ errs msg, InherentErrEntry.other msg ∈ errs →
      check_inherents check_inherents_after number
          (.ok { ok := false, errors := errs }) now ≠ .ok ()) := by
  refine ⟨?_, fun ht => ?_, fun errs msg hmem => ?_⟩
  · by_cases ht : t > now + MAX_TIMESTAMP_DRIFT_SECS
    · simp [check_inherents, hn, checkErrorList, ht]
    · simp [check_inherents, hn, checkErrorList, ht]
      omega
  · simp [check_inherents, hn, checkErrorList, ht]
  · simpa [check_inherents, hn] using checkErrorList_ok_no_other msg errs now hmem

/-- Witness for C4: with `now = 10`, a claimed timestamp of 70 (drift
exactly 60 s) passes, 71 (drift 61 s) is rejected as too far in the
future, and an `Other` inherent error fails. -/
theorem check_inherents_timestamp_drift_witness :
    check_inherents 0 5 (.ok { ok := false, errors := [.validAt 70] }) 10 = .ok () ∧
    check_inherents 0 5 (.ok { ok := false, errors := [.validAt 71] }) 10 =
      .error ("Rejecting block too far in future") ∧
    check_inherents 0 5 (.ok { ok := false, errors := [.other ("bad")] }) 10 ≠ .ok () :=
  ⟨((check_inherents_timestamp_drift 0 5 10 70 (by decide)).1).mpr (by decide),
   (check_inherents_timestamp_drift 0 5 10 71 (by decide)).2.1 (by decide),
   (check_inherents_timestamp_drift 0 5 10 0 (by decide)).2.2
     [.other ("bad")] ("bad") (by simp)⟩

/-- C7: `check_header` rejects a header with no terminal digest item or a
non-`Seal` terminal item as unsealed, rejects a terminal seal of a foreign
engine as wrong-engine, feeds `poc_verify` the hash of the header with the
terminal seal removed (the pre-hash), fails when `poc_verify` answers
`false` or errs, and on success returns the stripped header, the computed
difficulty, and the original seal digest item. -/
theorem check_header_cases {D : Type} (alg : PocAlgorithm D)
    (hashFn : Header → H256) (header : Header) (parent : BlockId) :
    (header.digest.getLast? = none →
      check_header alg hashFn header parent = .error ("Header is unsealed")) ∧
    (∀ item, header.digest.getLast? = some item →
      (∀ id s, item ≠ DigestItem.Seal id s) →
      check_header alg hashFn header parent = .error ("Header is unsealed")) ∧
    (∀ id s, header.digest.getLast? = some (DigestItem.Seal id s) →
      id ≠ POC_ENGINE_ID →
      check_header alg hashFn header parent =
        .error ("Header uses the wrong engine")) ∧
    (∀ s, header.digest.getLast? = some (DigestItem.Seal POC_ENGINE_ID s) →
      ∀ d, alg.difficulty parent = .ok d →
        (alg.poc_verify parent (hashFn header.stripSeal) s d = .ok false →
          check_header alg hashFn header parent =
            .error ("PoC validation error: invalid nonceData")) ∧
        (∀ e, alg.poc_verify parent (hashFn header.stripSeal) s d = .error e →
          check_header alg hashFn header parent = .error e) ∧
        (alg.poc_verify parent (hashFn header.stripSeal) s d = .ok true →
          check_header alg hashFn header parent =
            .ok (header.stripSeal, d, DigestItem.Seal POC_ENGINE_ID s))) := by
  refine ⟨fun hL => ?_, fun item hL hne => ?_, fun id s hL hid => ?_,
    fun s hL d hd => ⟨fun hv => ?_, fun e hv => ?_, fun hv => ?_⟩⟩
  · simp [check_header, hL]
  · cases item with
    | Seal id s => exact absurd rfl (hne id s)
    | PreRuntime id s => simp [check_header, hL]
    | Other bs => simp [check_header, hL]
  · simp [check_header, hL, hid]
  · simp [check_header, hL, hd, hv]
  · simp [check_header, hL, hd, hv]
  · simp [check_header, hL, hd, hv]

/-- C10: on success `check_header` only removes the terminal digest item —
every other header field and every non-terminal digest item is returned
unchanged — and a header whose earlier digest items are arbitrary (foreign
seals included) still passes the seal check when its terminal item is a
valid PoC seal. -/
theorem check_header_frame {D : Type} (alg : PocAlgorithm D)
    (hashFn : Header → H256) (header : Header) (parent : BlockId) :
    (∀ h' d item, check_header alg hashFn header parent = .ok (h', d, item) →
      h'.parent_hash = header.parent_hash ∧ h'.number = header.number ∧
      h'.state_root = header.state_root ∧
      h'.extrinsics_root = header.extrinsics_root ∧
      h'.digest = header.digest.dropLast ∧
      header.digest.getLast? = some item) ∧
    (∀ (items : List DigestItem) (s : List UInt8) d,
      header.digest = items ++ [DigestItem.Seal POC_ENGINE_ID s] →
      alg.difficulty parent = .ok d →
      alg.poc_verify parent (hashFn header.stripSeal) s d = .ok true →
      check_header alg hashFn header parent =
        .ok (header.stripSeal, d, DigestItem.Seal POC_ENGINE_ID s)) := by
  constructor
  · intro h' d item h
    rcases hL : header.digest.getLast? with _ | item0
    · simp [check_header, hL] at h
    · cases item0 with
      | Seal id s =>
        by_cases hid : id = POC_ENGINE_ID
        · subst hid
          cases hd : alg.difficulty parent with
          | error e => simp [check_header, hL, hd] at h
          | ok d0 =>
            cases hv : alg.poc_verify parent (hashFn header.stripSeal) s d0 with
            | error e => simp [check_header, hL, hd, hv] at h
            | ok b =>
              cases b with
              | false => simp [check_header, hL, hd, hv] at h
              | true =>
                simp [check_header, hL, hd, hv] at h
                obtain ⟨h1, _, h3⟩ := h
                subst h1; subst h3
                simp [Header.stripSeal, hL]
        · simp [check_header, hL, hid] at h
      | PreRuntime id s => simp [check_header, hL] at h
      | Other bs => simp [check_header, hL] at h
  · intro items s d hdig hd hv
    have hL : header.digest.getLast? = some (DigestItem.Seal POC_ENGINE_ID s) := by
      rw [hdig]; simp
    simp [check_header, hL, hd, hv]

/-- Inversion helper: a successful `check_header` run used the difficulty
the algorithm reported for the parent and returned the stripped header. -/
theorem check_header_ok_inv {D : Type} (alg : PocAlgorithm D)
    (hashFn : Header → H256) (header : Header) (parent : BlockId)
    {h' : Header} {d : D} {item : DigestItem}
    (h : check_header alg hashFn header parent = .ok (h', d, item)) :
    alg.difficulty parent = .ok d ∧ h' = header.stripSeal := by
  rcases hL : header.digest.getLast? with _ | item0
  · simp [check_header, hL] at h
  · cases item0 with
    | Seal id s =>
      by_cases hid : id = POC_ENGINE_ID
      · subst hid
        cases hd : alg.difficulty parent with
        | error e => simp [check_header, hL, hd] at h
        | ok d0 =>
          cases hv : alg.poc_verify parent (hashFn header.stripSeal) s d0 with
          | error e => simp [check_header, hL, hd, hv] at h
          | ok b =>
            cases b with
            | false => simp [check_header, hL, hd, hv] at h
            | true =>
              simp [check_header, hL, hd, hv] at h
              obtain ⟨h1, h2, h3⟩ := h
              subst h1; subst h2
              exact ⟨rfl, rfl⟩
      · simp [check_header, hL, hid] at h
    | PreRuntime id s => simp [check_header, hL] at h
    | Other bs => simp [check_header, hL] at h

/-- Witness for C7: an empty digest is rejected as unsealed; a valid PoC
terminal seal is accepted with the stripped header, the difficulty, and
the original seal item. -/
theorem check_header_cases_witness :
    check_header algPass hashZero hdrNoSeal (BlockId.hash (h256of 1)) =
      .error ("Header is unsealed") ∧
    check_header algPass hashZero hdrA (BlockId.hash (h256of 1)) =
      .ok (hdrA.stripSeal, 1, DigestItem.Seal POC_ENGINE_ID [7]) :=
  ⟨(check_header_cases algPass hashZero hdrNoSeal (BlockId.hash (h256of 1))).1 rfl,
   ((check_header_cases algPass hashZero hdrA (BlockId.hash (h256of 1))).2.2.2
      [7] rfl 1 rfl).2.2 rfl⟩

/-- Witness for C10: the foreign seal sitting in a non-terminal digest
position does not trip the seal check, and only the terminal item is
removed. -/
theorem check_header_frame_witness :
    check_header algPass hashZero hdrA (BlockId.hash (h256of 1)) =
      .ok (hdrA.stripSeal, 1, DigestItem.Seal POC_ENGINE_ID [7]) ∧
    hdrA.stripSeal.digest = [DigestItem.Seal otherEngineId [1]] :=
  ⟨(check_header_frame algPass hashZero hdrA (BlockId.hash (h256of 1))).2
     [DigestItem.Seal otherEngineId [1]] [7] 1 rfl rfl rfl, rfl⟩

/-- Inversion helper: the shape of the import params a successful
`verify` run emits, given the observations the run made. -/
theorem verify_ok_inv {D : Type} [Inhabited D] [LinearOrder D] [TotalDifficulty D]
    (alg : PocAlgorithm D) (c : Codec D) (hashFn : Header → H256)
    (thr : Nat) (env : VerifyEnv) (origin : BlockOrigin) (header : Header)
    (justification : Option (List UInt8)) (body : Option (List (List UInt8)))
    {params : BlockImportParams D}
    (h : verify alg c hashFn thr env origin header justification body = .ok params)
    {bh : H256} (hbh : bestHashOf env hashFn = .ok bh)
    {best_aux : PocAux D} (hbest : PocAux.read c env.get_aux bh = .ok best_aux)
    {aux0 : PocAux D}
    (hpar : PocAux.read c env.get_aux header.parent_hash = .ok aux0)
    {d : D} (hd : alg.difficulty (BlockId.hash header.parent_hash) = .ok d) :
    params.origin = origin ∧
    params.header = header.stripSeal ∧
    params.body = body ∧
    params.finalized = false ∧
    params.justification = justification ∧
    params.auxiliary = [(aux_key (hashFn header),
      some (PocAux.encode c
        { difficulty := d,
          total_difficulty := TotalDifficulty.increment aux0.total_difficulty d }))] ∧
    params.fork_choice = ForkChoiceStrategy.Custom
      (decide (TotalDifficulty.increment aux0.total_difficulty d >
        best_aux.total_difficulty)) := by
  cases ht : env.timestamp_now with
  | error e => simp [verify, ht] at h
  | ok now =>
    cases hch : check_header alg hashFn header (BlockId.hash header.parent_hash) with
    | error e => simp [verify, ht, hbh, hbest, hpar, hch] at h
    | ok trip =>
      obtain ⟨ch, d0, nd⟩ := trip
      obtain ⟨hd0, hch'⟩ := check_header_ok_inv alg hashFn header _ hch
      have hdd : d0 = d := by rw [hd0] at hd; exact Except.ok.inj hd
      subst hdd
      subst hch'
      cases body with
      | none =>
        simp [verify, ht, hbh, hbest, hpar, hch] at h
        subst h
        exact ⟨rfl, rfl, rfl, rfl, rfl, rfl, rfl⟩
      | some bb =>
        cases hci : check_inherents thr header.stripSeal.number
            (env.runtime_check header.stripSeal bb) now with
        | error e => simp [verify, ht, hbh, hbest, hpar, hch, hci] at h
        | ok u =>
          simp [verify, ht, hbh, hbest, hpar, hch, hci] at h
          subst h
          exact ⟨rfl, rfl, rfl, rfl, rfl, rfl, rfl⟩

/-- C3: the aux record a successful verification attaches to the import
params carries the algorithm's difficulty for the parent and the parent's
stored total difficulty incremented by it; an absent parent contributes
the zero default. -/
theorem verify_aux_record {D : Type} [Inhabited D] [LinearOrder D] [TotalDifficulty D]
    (alg : PocAlgorithm D) (c : Codec D) (hashFn : Header → H256)
    (thr : Nat) (env : VerifyEnv) (origin : BlockOrigin) (header : Header)
    (justification : Option (List UInt8)) (body : Option (List (List UInt8)))
    {params : BlockImportParams D}
    (h : verify alg c hashFn thr env origin header justification body = .ok params)
    {aux0 : PocAux D}
    (hpar : PocAux.read c env.get_aux header.parent_hash = .ok aux0)
    {d : D} (hd : alg.difficulty (BlockId.hash header.parent_hash) = .ok d) :
    params.auxiliary = [(aux_key (hashFn header),
      some (PocAux.encode c
        { difficulty := d,
          total_difficulty := TotalDifficulty.increment aux0.total_difficulty d }))] ∧
    (env.get_aux (aux_key header.parent_hash) = .ok none →
      aux0 = { difficulty := default, total_difficulty := default }) := by
  have habsent : env.get_aux (aux_key header.parent_hash) = .ok none →
      aux0 = { difficulty := default, total_difficulty := default } := by
    intro hn
    rw [PocAux.read, hn] at hpar
    exact (Except.ok.inj hpar).symm
  cases ht : env.timestamp_now with
  | error e => simp [verify, ht] at h
  | ok now =>
    cases hbh : bestHashOf env hashFn with
    | error e => simp [verify, ht, hbh] at h
    | ok bh =>
      cases hbest : PocAux.read c env.get_aux bh with
      | error e => simp [verify, ht, hbh, hbest] at h
      | ok best_aux =>
        exact ⟨(verify_ok_inv alg c hashFn thr env origin header justification body
          h hbh hbest hpar hd).2.2.2.2.2.1, habsent⟩

/-- Witness for C3: in scenario `venvA` the emitted aux record is
`(1, 4 + 1)`; in the genesis scenario `venvG` the absent parent reads as
the zero default and the emitted aux record is `(1, 0 + 1)`. -/
theorem verify_aux_record_witness :
    paramsA.auxiliary = [(aux_key (h256of 0),
      some (PocAux.encode natCodec { difficulty := 1, total_difficulty := 5 }))] ∧
    paramsG.auxiliary = [(aux_key (h256of 0),
      some (PocAux.encode natCodec { difficulty := 1, total_difficulty := 1 }))] ∧
    ({ difficulty := 0, total_difficulty := 0 } : PocAux Nat) =
      { difficulty := default, total_difficulty := default } :=
  ⟨(verify_aux_record algPass natCodec hashZero 0 venvA BlockOrigin.NetworkBroadcast
      hdrA none (some []) rfl rfl rfl).1,
   (verify_aux_record algPass natCodec hashZero 0 venvG BlockOrigin.NetworkBroadcast
      hdrA none (some []) rfl rfl rfl).1,
   (verify_aux_record algPass natCodec hashZero 0 venvG BlockOrigin.NetworkBroadcast
      hdrA none (some []) rfl rfl rfl).2 rfl⟩

/-- C1 (amended): the verifier's fork-choice verdict prefers the new block
iff its total difficulty strictly exceeds the observed best total; the
miner's submissions, however, always carry `Custom(true)` — in the miner
path a tie with the re-read best also sets `prefers_new`. -/
theorem fork_choice_verdicts {D : Type} [Inhabited D] [LinearOrder D] [TotalDifficulty D]
    (alg : PocAlgorithm D) (c : Codec D) (hashFn : Header → H256) :
    (∀ (thr : Nat) (env : VerifyEnv) (origin : BlockOrigin) (header : Header)
        (justification : Option (List UInt8)) (body : Option (List (List UInt8)))
        (params : BlockImportParams D) (bh : H256) (best_aux aux0 : PocAux D) (d : D),
      verify alg c hashFn thr env origin header justification body = .ok params →
      bestHashOf env hashFn = .ok bh →
      PocAux.read c env.get_aux bh = .ok best_aux →
      PocAux.read c env.get_aux header.parent_hash = .ok aux0 →
      alg.difficulty (BlockId.hash header.parent_hash) = .ok d →
      (params.fork_choice = ForkChoiceStrategy.Custom true ↔
        best_aux.total_difficulty <
          TotalDifficulty.increment aux0.total_difficulty d)) ∧
    (∀ (env : MinerEnv) (fuel : Nat) (q : BlockImportParams D),
      mineLoopIter alg c hashFn env fuel = .imported q →
      q.fork_choice = ForkChoiceStrategy.Custom true) := by
  constructor
  · intro thr env origin header justification body params bh best_aux aux0 d
      h hbh hbest hpar hd
    have hfc := (verify_ok_inv alg c hashFn thr env origin header justification body
      h hbh hbest hpar hd).2.2.2.2.2.2
    rw [hfc]
    simp
  · intro env fuel q h
    by_cases hs : env.is_major_syncing
    · simp [mineLoopIter, hs] at h
    · cases hbp : minerBestPair env hashFn with
      | error e => simp [mineLoopIter, hs, hbp] at h
      | ok bp =>
        obtain ⟨bh, bhd⟩ := bp
        cases ha : PocAux.read c env.get_aux bh with
        | error e => simp [mineLoopIter, hs, hbp, ha] at h
        | ok aux0 =>
          cases hp : env.propose with
          | error e => simp [mineLoopIter, hs, hbp, ha, hp] at h
          | ok pr =>
            obtain ⟨hdr, bdy⟩ := pr
            cases hd : alg.difficulty (BlockId.hash bh) with
            | error e => simp [mineLoopIter, hs, hbp, ha, hp, hd] at h
            | ok d =>
              cases hm : mineInner env bh fuel 0 with
              | errorE e => simp [mineLoopIter, hs, hbp, ha, hp, hd, hm] at h
              | fuelOut => simp [mineLoopIter, hs, hbp, ha, hp, hd, hm] at h
              | moved => simp [mineLoopIter, hs, hbp, ha, hp, hd, hm] at h
              | found nd =>
                cases hr : minerBestRecheck env hashFn with
                | error e => simp [mineLoopIter, hs, hbp, ha, hp, hd, hm, hr] at h
                | ok bh2 =>
                  cases hba : PocAux.read c env.get_aux bh2 with
                  | error e =>
                    simp [mineLoopIter, hs, hbp, ha, hp, hd, hm, hr, hba] at h
                  | ok bestAux =>
                    by_cases hgt : bestAux.total_difficulty >
                        TotalDifficulty.increment aux0.total_difficulty d
                    · simp [mineLoopIter, hs, hbp, ha, hp, hd, hm, hr, hba, hgt] at h
                    · cases hir : env.import_result with
                      | error e =>
                        simp [mineLoopIter, hs, hbp, ha, hp, hd, hm, hr, hba,
                          hgt, hir] at h
                      | ok u =>
                        simp [mineLoopIter, hs, hbp, ha, hp, hd, hm, hr, hba,
                          hgt, hir] at h
                        subst h
                        rfl

/-- Counterexample to C1 as stated: in the tie scenario the miner emits
params whose fork choice is `Custom true` although the candidate's
total difficulty (2 = 1 + 1) is not strictly greater than the re-read
best total (2). -/
theorem fork_choice_tie_cex :
    mineLoopIter algPass natCodec hashZero envTie 1 = .imported paramsTie ∧
    paramsTie.fork_choice = ForkChoiceStrategy.Custom true ∧
    PocAux.read natCodec envTie.get_aux (h256of 5) =
      .ok { difficulty := 0, total_difficulty := 2 } ∧
    PocAux.read natCodec envTie.get_aux (h256of 4) =
      .ok { difficulty := 1, total_difficulty := 1 } ∧
    algPass.difficulty (BlockId.hash (h256of 4)) = .ok 1 ∧
    ¬ (TotalDifficulty.increment (1 : Nat) 1 > (2 : Nat)) :=
  ⟨by decide, rfl, rfl, rfl, rfl, by decide⟩

/-- Witness for C1 (amended): the verifier's tie (new total 5 vs best 5)
yields a verdict equivalent to the false strict comparison, and the tie
scenario's miner submission carries `Custom true`. -/
theorem fork_choice_verdicts_witness :
    (paramsA.fork_choice = ForkChoiceStrategy.Custom true ↔ (5 : Nat) < 5) ∧
    paramsTie.fork_choice = ForkChoiceStrategy.Custom true :=
  ⟨(fork_choice_verdicts algPass natCodec hashZero).1 0 venvA
      BlockOrigin.NetworkBroadcast hdrA none (some []) paramsA (h256of 6)
      { difficulty := 2, total_difficulty := 5 }
      { difficulty := 3, total_difficulty := 4 } 1 rfl rfl rfl rfl rfl,
   (fork_choice_verdicts algPass natCodec hashZero).2 envTie 1 paramsTie
     (by decide)⟩

/-- C2 (amended): after a successful mine and sealing, the proposal is
dropped (outcome `droppedRace`, reached before `import_block`) exactly
when the re-read best total difficulty is strictly greater than the
candidate's new total; at a tie or below, the iteration proceeds to
submission instead. -/
theorem miner_race_recheck {D : Type} [Inhabited D] [LinearOrder D] [TotalDifficulty D]
    (alg : PocAlgorithm D) (c : Codec D) (hashFn : Header → H256)
    (env : MinerEnv) (fuel : Nat)
    (hs : env.is_major_syncing = false)
    {bh : H256} {bhd : Header}
    (hbp : minerBestPair env hashFn = .ok (bh, bhd))
    {aux0 : PocAux D} (ha : PocAux.read c env.get_aux bh = .ok aux0)
    {hdr : Header} {bdy : List (List UInt8)}
    (hp : env.propose = .ok (hdr, bdy))
    {d : D} (hd : alg.difficulty (BlockId.hash bh) = .ok d)
    {nd : List UInt8} (hm : mineInner env bh fuel 0 = .found nd)
    {bh2 : H256} (hr : minerBestRecheck env hashFn = .ok bh2)
    {best_aux : PocAux D} (hba : PocAux.read c env.get_aux bh2 = .ok best_aux) :
    mineLoopIter alg c hashFn env fuel = .droppedRace ↔
      best_aux.total_difficulty >
        TotalDifficulty.increment aux0.total_difficulty d := by
  by_cases hgt : best_aux.total_difficulty >
      TotalDifficulty.increment aux0.total_difficulty d
  · simp [mineLoopIter, hs, hbp, ha, hp, hd, hm, hr, hba, hgt]
  · simp only [mineLoopIter, hs, hbp, ha, hp, hd, hm, hr, hba]
    cases hir : env.import_result with
    | error e => simp [hs, hbp, ha, hp, hd, hm, hr, hba, hgt, hir]
    | ok u => simp [hs, hbp, ha, hp, hd, hm, hr, hba, hgt, hir]

/-- Counterexample to C2 as stated: in the tie scenario the re-read best
total (2) is greater than or equal to the candidate's new total (2 = 1+1),
yet the proposal is not dropped — the iteration calls `import_block`. -/
theorem miner_race_tie_cex :
    PocAux.read natCodec envTie.get_aux (h256of 5) =
      .ok { difficulty := 0, total_difficulty := 2 } ∧
    (2 : Nat) ≥ TotalDifficulty.increment (1 : Nat) 1 ∧
    mineLoopIter algPass natCodec hashZero envTie 1 = .imported paramsTie :=
  ⟨rfl, by decide, by decide⟩

/-- Witness for C2 (amended): with a strictly heavier re-read best (total
5 against the candidate's 2) the iteration ends in `droppedRace`, even
though the scenario's import handle would have errored had it been
consulted. -/
theorem miner_race_recheck_witness :
    mineLoopIter algPass natCodec hashZero envDrop 1 = MineOutcome.droppedRace :=
  (miner_race_recheck algPass natCodec hashZero envDrop 1 rfl rfl rfl rfl rfl
      rfl rfl rfl).mpr (by decide)

end Poc
